import Mathlib

/-!
Verification of `src/chess-bot/chess-simulator.cpp` (the Stockfish UCI driver).

The C++ source is shallowly embedded: C++ `std::string` values become `List Char`,
the string-scanning helpers (`std::string::find`, `strstr`, `substr`) become
structurally recursive Lean functions with the same index semantics, the two
polling loops of `run_stockfish` become a wall-clock-bounded recursive function
over an explicit engine-behavior oracle, and the externally visible effects of
`run_stockfish` (writes to the engine, stream closes, signalling, reaping) are
recorded in an action trace.
-/

set_option linter.unusedVariables false

namespace ChessSimulator

/-- The characters of a string literal; embeds C++ string constants. -/
def chars (s : String) : List Char := s.toList

/-- The C NUL character. -/
def nulChar : Char := Char.ofNat 0

/-- The space character, the single-character needle of `line.find(" ", 9)`. -/
def spaceChar : Char := Char.ofNat 32

/-- The byte sequence `fprintf` emits for `%s` applied to `fen.c_str()`:
the characters of `fen` up to (excluding) the first NUL byte. -/
def cstr (s : List Char) : List Char := s.takeWhile (fun c => c != nulChar)

/-- `leadsWith pat s` holds when `pat` occurs at the very start of `s`
(the per-position check inside C `strstr` / `std::string::find`). -/
def leadsWith : List Char → List Char → Bool
  | [], _ => true
  | _ :: _, [] => false
  | a :: as, b :: bs => a == b && leadsWith as bs

/-- `strFind s pat` is `std::string::find(pat)` on `s`: the least index at which
`pat` occurs in `s`, or `none` for `std::string::npos`. -/
def strFind : List Char → List Char → Option Nat
  | [], pat => if pat.isEmpty then some 0 else none
  | a :: rest, pat =>
    if leadsWith pat (a :: rest) then some 0
    else (strFind rest pat).map (fun i => i + 1)

/-- `containsSub s pat` is C `strstr(s, pat) != NULL`: `pat` occurs somewhere in `s`. -/
def containsSub (s pat : List Char) : Bool := (strFind s pat).isSome

/-- Least index in `l` whose character satisfies `p`. -/
def findIdxFrom (p : Char → Bool) : List Char → Option Nat
  | [] => none
  | a :: as => if p a then some 0 else (findIdxFrom p as).map (fun i => i + 1)

/-- `findCharFrom s c k` is `std::string::find(c, k)` on `s`: the least index
`≥ k` holding character `c`, or `none` for `npos` (also when `k > s.length`). -/
def findCharFrom (s : List Char) (c : Char) (k : Nat) : Option Nat :=
  (findIdxFrom (fun x => x == c) (s.drop k)).map (fun i => i + k)

/-- The sentinel substring `"bestmove"` scanned for in the engine output. -/
def bestmoveTok : List Char := chars "bestmove"

/-- The sentinel substring `"readyok"` scanned for during the ready-wait phase. -/
def readyokTok : List Char := chars "readyok"

/-- The parse step of `Move` (chess-simulator.cpp lines 193-205): locate the first
`"bestmove"`, take the suffix `line` from there, find the first space at index
`≥ 9` in `line` (falling back to `line.length`), and return `line.substr(9,
spacePos - 9)`.  `substr(9, _)` throws `std::out_of_range` when `9 > line.length`;
that exception is modelled as `Except.error` (it is caught at the `Move` boundary).
When `"bestmove"` is absent the C++ code prints a diagnostic and falls through to
`return ""`, modelled as `Except.ok []`. -/
def parseBestmove (output : List Char) : Except Unit (List Char) :=
  match strFind output bestmoveTok with
  | none => Except.ok []
  | some p =>
    let line := output.drop p
    if line.length < 9 then Except.error ()
    else
      let spacePos := (findCharFrom line spaceChar 9).getD line.length
      Except.ok ((line.drop 9).take (spacePos - 9))

/-- The Result Parser `extract(text) → MoveResult`: the value `Move` produces from
a captured output text, with every parse failure collapsed to the empty string
(the `catch` block of `Move` converts the `substr` exception to `""` as well). -/
def extract (output : List Char) : List Char :=
  match parseBestmove output with
  | Except.ok m => m
  | Except.error _ => []

/-- The fixed ordered candidate list of engine paths (lines 25-30). -/
def stockfish_paths : List (List Char) :=
  [chars "/usr/local/bin/stockfish",
   chars "/app/stockfish",
   chars "stockfish",
   chars "/opt/homebrew/bin/stockfish"]

/-- The Engine Locator loop (lines 32-38): `ex p` models `access(p, X_OK) == 0`.
`stockfish_path` starts empty and receives the first executable candidate; the
empty result signals that no candidate matched. -/
def locateLoop : List (List Char) → (List Char → Bool) → List Char
  | [], _ => []
  | p :: rest, ex => if ex p then p else locateLoop rest ex

/-- The four raw pipe file descriptors created by the two `pipe()` calls. -/
inductive Fd
  | p2cRead
  | p2cWrite
  | c2pRead
  | c2pWrite
deriving DecidableEq, Repr

/-- Externally visible effects of the parent-side code of `run_stockfish`:
newline-terminated command writes (`fprintf`), `fflush`, `close` of a raw pipe
descriptor, `fclose` of the two buffered streams, `kill(pid, SIGTERM)` and
`waitpid(pid, NULL, 0)`. -/
inductive Action
  | sendCmd : List Char → Action
  | flush : Action
  | closeFd : Fd → Action
  | closeToEngine : Action
  | closeFromEngine : Action
  | kill : Action
  | waitpid : Action
deriving DecidableEq, Repr

/-- The three exceptions `run_stockfish` can throw (lines 41, 49, 61). -/
inductive EngineError
  | notFound
  | pipeFailed
  | forkFailed
deriving DecidableEq, Repr

/-- One engine run as observed through the non-blocking `fgets` polls: `chunk i`
is the text returned by the `fgets` call of loop iteration `i` (`none` when no
data was available), and `readTime i` is the wall-clock time in milliseconds the
iteration spends besides the fixed 10 ms sleep. -/
structure EngineBehavior where
  chunk : Nat → Option (List Char)
  readTime : Nat → Nat

/-- The commands written by `run_stockfish`, each exactly as formatted by the
corresponding `fprintf` (newline included). -/
def uciCmd : List Char := chars "uci\n"

def threadsCmd (nThreads : Nat) : List Char :=
  chars "setoption name Threads value " ++ chars (Nat.repr nThreads) ++ chars "\n"

def hashCmd : List Char := chars "setoption name Hash value 512\n"

def skillCmd : List Char := chars "setoption name Skill Level value 20\n"

def multiPVCmd : List Char := chars "setoption name MultiPV value 1\n"

def isreadyCmd : List Char := chars "isready\n"

def positionCmd (fen : List Char) : List Char :=
  chars "position fen " ++ fen ++ chars "\n"

def goCmd : List Char := chars "go movetime 1000\n"

def quitCmd : List Char := chars "quit\n"

/-- One polling loop of `run_stockfish` (lines 119-135 with `tok = "readyok"`,
`limitSec = 5`; lines 150-167 with `tok = "bestmove"`, `limitSec = 7`).  Each
iteration attempts one `fgets`; a returned chunk is appended to the accumulator
and scanned with `strstr` for `tok`.  The deadline is then rechecked: the loop
breaks once the elapsed time, truncated to whole seconds as by
`duration_cast<seconds>`, exceeds `limitSec`; otherwise it sleeps 10 ms and
iterates.  `t` is the elapsed milliseconds at iteration entry.  (When the chunk
holds `tok` the C++ loop still performs the deadline check and sleep before the
`while` condition exits; the returned pair is identical.) -/
def waitLoop (tok : List Char) (limitSec : Nat) (b : EngineBehavior) (i t : Nat)
    (acc : List Char) : List Char × Bool :=
  match b.chunk i with
  | some c =>
    if containsSub c tok then (acc ++ c, true)
    else
      if h : limitSec < (t + b.readTime i) / 1000 then (acc ++ c, false)
      else waitLoop tok limitSec b (i + 1) (t + b.readTime i + 10) (acc ++ c)
  | none =>
      if h : limitSec < (t + b.readTime i) / 1000 then (acc, false)
      else waitLoop tok limitSec b (i + 1) (t + b.readTime i + 10) acc
termination_by (limitSec + 1) * 1000 + 10 - t
decreasing_by
  · have hd : t + b.readTime i < (limitSec + 1) * 1000 :=
      (Nat.div_lt_iff_lt_mul (by omega)).mp (by omega)
    omega
  · have hd : t + b.readTime i < (limitSec + 1) * 1000 :=
      (Nat.div_lt_iff_lt_mul (by omega)).mp (by omega)
    omega

/-- The cleanup block of `run_stockfish` (lines 169-179): send `quit` and flush,
`fclose` both streams, `kill(pid, SIGTERM)`, `waitpid`. -/
def shutdownSeq : List Action :=
  [Action.sendCmd quitCmd, Action.flush, Action.closeToEngine,
   Action.closeFromEngine, Action.kill, Action.waitpid]

/-- `run_stockfish(fen)` (lines 23-182).  Environment inputs: `ex` models
`access(path, X_OK) == 0`, `pipesOk` whether both `pipe()` calls succeed,
`forkOk` whether `fork()` returns a child pid, and `readyB`/`resultB` the engine
output observed by the two polling loops.  The result pairs the trace of
externally visible parent-side actions with either the thrown exception or the
returned text.  On fork failure the four raw descriptors are closed in source
order (lines 57-60) before the throw.  On the success path the parent closes its
two unused pipe ends (lines 87-88), performs the handshake writes, runs the
ready-wait loop (its accumulated text is discarded by `result.clear()`), sends
the query, runs the result-wait loop and returns its accumulated text after the
cleanup block.  The 100 ms initialization sleep and the `fcntl` non-blocking
setup have no effect on the modelled observables. -/
def run_stockfish (ex : List Char → Bool) (nThreads : Nat) (pipesOk forkOk : Bool)
    (readyB resultB : EngineBehavior) (fen : List Char) :
    List Action × Except EngineError (List Char) :=
  if locateLoop stockfish_paths ex = [] then
    ([], Except.error EngineError.notFound)
  else if pipesOk = false then
    ([], Except.error EngineError.pipeFailed)
  else if forkOk = false then
    ([Action.closeFd Fd.p2cRead, Action.closeFd Fd.p2cWrite,
      Action.closeFd Fd.c2pRead, Action.closeFd Fd.c2pWrite],
     Except.error EngineError.forkFailed)
  else
    let handshake : List Action :=
      [Action.closeFd Fd.p2cRead, Action.closeFd Fd.c2pWrite,
       Action.sendCmd uciCmd, Action.flush,
       Action.sendCmd (threadsCmd nThreads), Action.sendCmd hashCmd,
       Action.sendCmd skillCmd, Action.sendCmd multiPVCmd,
       Action.sendCmd isreadyCmd, Action.flush]
    let _readyPhase := waitLoop readyokTok 5 readyB 0 0 []
    let query : List Action :=
      [Action.sendCmd (positionCmd (cstr fen)), Action.flush,
       Action.sendCmd goCmd, Action.flush]
    let resultPhase := waitLoop bestmoveTok 7 resultB 0 0 []
    (handshake ++ query ++ shutdownSeq, Except.ok resultPhase.1)

/-- `ChessSimulator::Move` (lines 184-214): run the engine, parse the captured
output; every exception is caught and, like a missing `bestmove`, collapses to
the empty string (diagnostics go to `std::cerr`, which returns no value). -/
def Move (ex : List Char → Bool) (nThreads : Nat) (pipesOk forkOk : Bool)
    (readyB resultB : EngineBehavior) (fen : List Char) : List Char :=
  match (run_stockfish ex nThreads pipesOk forkOk readyB resultB fen).2 with
  | Except.error _ => []
  | Except.ok output => extract output

/-- The subsequence of commands written to the engine, in trace order. -/
def sendsOf (tr : List Action) : List (List Char) :=
  tr.filterMap (fun a => match a with | Action.sendCmd s => some s | _ => none)

/-- Concatenation of the chunks an `EngineBehavior` offers at iterations
`i, i+1, ..., i+n-1` (absent chunks contribute nothing). -/
def chunksSeg (b : EngineBehavior) : Nat → Nat → List Char
  | _, 0 => []
  | i, n + 1 => ((b.chunk i).getD []) ++ chunksSeg b (i + 1) n

/-- An engine that never produces output: every poll returns no data, and each
poll attempt takes 10 s of wall-clock time. -/
def silentEngine : EngineBehavior := ⟨fun _ => none, fun _ => 10000⟩

/-- An engine whose `bestmove` line reaches the reader split across two `fgets`
chunks (as happens when a line longer than the 4096-byte buffer is cut, or a
non-blocking read returns a partial line): no single chunk holds the substring
`"bestmove"` even though their concatenation does.  After the two chunks the
pipe stays silent and the third poll runs past the deadline. -/
def splitChunks : EngineBehavior :=
  ⟨fun i => if i = 0 then some (chars "abest")
    else if i = 1 then some (chars "move e2e4 x") else none,
   fun i => if i ≤ 1 then 0 else 9000⟩

/-! Helper lemmas about the string-scanning functions. -/

theorem leadsWith_append : ∀ (pat s r : List Char),
    leadsWith pat s = true → leadsWith pat (s ++ r) = true
  | [], _, _, _ => rfl
  | _ :: _, [], _, h => by simp [leadsWith] at h
  | a :: as, b :: bs, r, h => by
    simp only [leadsWith, Bool.and_eq_true] at h
    simpa only [List.cons_append, leadsWith, Bool.and_eq_true] using
      ⟨h.1, leadsWith_append as bs r h.2⟩

theorem containsSub_cons (a : Char) (s pat : List Char) :
    containsSub (a :: s) pat = (leadsWith pat (a :: s) || containsSub s pat) := by
  by_cases hl : leadsWith pat (a :: s)
  · simp [containsSub, strFind, hl]
  · cases hsf : strFind s pat <;> simp [containsSub, strFind, hl, hsf]

theorem containsSub_empty_pat (r : List Char) : containsSub r [] = true := by
  cases r with
  | nil => rfl
  | cons a as => simp [containsSub, strFind, leadsWith]

theorem containsSub_append_right (l r pat : List Char) (h : containsSub r pat = true) :
    containsSub (l ++ r) pat = true := by
  induction l with
  | nil => simpa
  | cons a as ih =>
    rw [List.cons_append, containsSub_cons]
    simp [ih]

theorem containsSub_append_left (l r pat : List Char) (h : containsSub l pat = true) :
    containsSub (l ++ r) pat = true := by
  induction l with
  | nil =>
    have : pat = [] := by
      by_contra hne
      cases pat with
      | nil => exact hne rfl
      | cons b bs => simp [containsSub, strFind] at h
    subst this
    exact containsSub_empty_pat _
  | cons a as ih =>
    rw [containsSub_cons] at h
    rw [List.cons_append, containsSub_cons]
    rcases Bool.or_eq_true_iff.mp h with hl | hs
    · have hla : leadsWith pat (a :: (as ++ r)) = true := leadsWith_append pat (a :: as) r hl
      simp [hla]
    · simp [ih hs]

theorem findIdxFrom_eq_none (p : Char → Bool) :
    ∀ l : List Char, (∀ x ∈ l, p x = false) → findIdxFrom p l = none := by
  intro l
  induction l with
  | nil => intro _; rfl
  | cons a as ih =>
    intro h
    have ha : p a = false := h a (by simp)
    simp [findIdxFrom, ha, ih (fun x hx => h x (by simp [hx]))]

theorem findIdxFrom_append (p : Char → Bool) :
    ∀ l r : List Char, (∀ x ∈ l, p x = false) →
      findIdxFrom p (l ++ r) = (findIdxFrom p r).map (fun i => i + l.length) := by
  intro l
  induction l with
  | nil =>
    intro r _
    cases hfr : findIdxFrom p r <;> simp [hfr]
  | cons a as ih =>
    intro r h
    have ha : p a = false := h a (by simp)
    rw [List.cons_append]
    simp only [findIdxFrom, ha, if_neg (by simp [ha] : ¬ p a = true)]
    rw [ih r (fun x hx => h x (by simp [hx]))]
    cases hfr : findIdxFrom p r <;> simp [hfr] <;> omega

/-! Helper lemmas about the polling loop. -/

theorem waitLoop_found {b : EngineBehavior} {i : Nat} {c : List Char} {tok : List Char}
    (L t : Nat) (acc : List Char) (hc : b.chunk i = some c)
    (hct : containsSub c tok = true) :
    waitLoop tok L b i t acc = (acc ++ c, true) := by
  rw [waitLoop]
  simp [hc, hct]

theorem waitLoop_stop_some {b : EngineBehavior} {i : Nat} {c : List Char} {tok : List Char}
    {L t : Nat} (acc : List Char) (hc : b.chunk i = some c)
    (hct : containsSub c tok = false) (ht : L < (t + b.readTime i) / 1000) :
    waitLoop tok L b i t acc = (acc ++ c, false) := by
  rw [waitLoop]
  simp [hc, hct, ht]

theorem waitLoop_step_some {b : EngineBehavior} {i : Nat} {c : List Char} {tok : List Char}
    {L t : Nat} (acc : List Char) (hc : b.chunk i = some c)
    (hct : containsSub c tok = false) (ht : ¬ L < (t + b.readTime i) / 1000) :
    waitLoop tok L b i t acc =
      waitLoop tok L b (i + 1) (t + b.readTime i + 10) (acc ++ c) := by
  rw [waitLoop]
  simp [hc, hct, ht]

theorem waitLoop_stop_none {b : EngineBehavior} {i : Nat} {tok : List Char}
    {L t : Nat} (acc : List Char) (hc : b.chunk i = none)
    (ht : L < (t + b.readTime i) / 1000) :
    waitLoop tok L b i t acc = (acc, false) := by
  rw [waitLoop]
  simp [hc, ht]

theorem waitLoop_step_none {b : EngineBehavior} {i : Nat} {tok : List Char}
    {L t : Nat} (acc : List Char) (hc : b.chunk i = none)
    (ht : ¬ L < (t + b.readTime i) / 1000) :
    waitLoop tok L b i t acc = waitLoop tok L b (i + 1) (t + b.readTime i + 10) acc := by
  rw [waitLoop]
  simp [hc, ht]

theorem waitLoop_timeout_of_late {b : EngineBehavior} {i : Nat}
    {L t : Nat} (ht : (L + 1) * 1000 ≤ t) : L < (t + b.readTime i) / 1000 := by
  have : (L + 1) * 1000 ≤ t + b.readTime i := by omega
  have := (Nat.le_div_iff_mul_le (by omega : 0 < 1000)).mpr this
  omega

/-- Whatever happens, the text accumulated by the polling loop extends the input
accumulator by a contiguous block of the behavior's chunks starting at `i`. -/
theorem waitLoop_text_aux (tok : List Char) (L : Nat) (b : EngineBehavior) :
    ∀ m t i acc, (L + 1) * 1000 + 10 - t ≤ m →
      ∃ n, (waitLoop tok L b i t acc).1 = acc ++ chunksSeg b i n := by
  intro m
  induction m with
  | zero =>
    intro t i acc hm
    have hlate : L < (t + b.readTime i) / 1000 := waitLoop_timeout_of_late (by omega)
    cases hc : b.chunk i with
    | some c =>
      cases hct : containsSub c tok with
      | true => exact ⟨1, by simp [waitLoop_found L t acc hc hct, chunksSeg, hc]⟩
      | false => exact ⟨1, by simp [waitLoop_stop_some acc hc hct hlate, chunksSeg, hc]⟩
    | none => exact ⟨0, by simp [waitLoop_stop_none acc hc hlate, chunksSeg]⟩
  | succ m ih =>
    intro t i acc hm
    cases hc : b.chunk i with
    | some c =>
      cases hct : containsSub c tok with
      | true => exact ⟨1, by simp [waitLoop_found L t acc hc hct, chunksSeg, hc]⟩
      | false =>
        by_cases ht : L < (t + b.readTime i) / 1000
        · exact ⟨1, by simp [waitLoop_stop_some acc hc hct ht, chunksSeg, hc]⟩
        · obtain ⟨n, hn⟩ := ih (t + b.readTime i + 10) (i + 1) (acc ++ c) (by omega)
          refine ⟨n + 1, ?_⟩
          rw [waitLoop_step_some acc hc hct ht, hn]
          simp [chunksSeg, hc]
    | none =>
      by_cases ht : L < (t + b.readTime i) / 1000
      · exact ⟨0, by simp [waitLoop_stop_none acc hc ht, chunksSeg]⟩
      · obtain ⟨n, hn⟩ := ih (t + b.readTime i + 10) (i + 1) acc (by omega)
        refine ⟨n + 1, ?_⟩
        rw [waitLoop_step_none acc hc ht, hn]
        simp [chunksSeg, hc]

theorem waitLoop_text (tok : List Char) (L : Nat) (b : EngineBehavior) :
    ∃ n, (waitLoop tok L b 0 0 []).1 = chunksSeg b 0 n := by
  obtain ⟨n, hn⟩ := waitLoop_text_aux tok L b ((L + 1) * 1000 + 10) 0 0 [] (by omega)
  exact ⟨n, by simpa using hn⟩

/-- The loop reports a find only when some single chunk holds the token. -/
theorem waitLoop_flag_aux (tok : List Char) (L : Nat) (b : EngineBehavior) :
    ∀ m t i acc, (L + 1) * 1000 + 10 - t ≤ m →
      (waitLoop tok L b i t acc).2 = true →
      ∃ j c, b.chunk j = some c ∧ containsSub c tok = true := by
  intro m
  induction m with
  | zero =>
    intro t i acc hm hfl
    have hlate : L < (t + b.readTime i) / 1000 := waitLoop_timeout_of_late (by omega)
    cases hc : b.chunk i with
    | some c =>
      cases hct : containsSub c tok with
      | true => exact ⟨i, c, hc, hct⟩
      | false => rw [waitLoop_stop_some acc hc hct hlate] at hfl; simp at hfl
    | none => rw [waitLoop_stop_none acc hc hlate] at hfl; simp at hfl
  | succ m ih =>
    intro t i acc hm hfl
    cases hc : b.chunk i with
    | some c =>
      cases hct : containsSub c tok with
      | true => exact ⟨i, c, hc, hct⟩
      | false =>
        by_cases ht : L < (t + b.readTime i) / 1000
        · rw [waitLoop_stop_some acc hc hct ht] at hfl; simp at hfl
        · rw [waitLoop_step_some acc hc hct ht] at hfl
          exact ih (t + b.readTime i + 10) (i + 1) (acc ++ c) (by omega) hfl
    | none =>
      by_cases ht : L < (t + b.readTime i) / 1000
      · rw [waitLoop_stop_none acc hc ht] at hfl; simp at hfl
      · rw [waitLoop_step_none acc hc ht] at hfl
        exact ih (t + b.readTime i + 10) (i + 1) acc (by omega) hfl

theorem waitLoop_flag (tok : List Char) (L : Nat) (b : EngineBehavior)
    (h : (waitLoop tok L b 0 0 []).2 = true) :
    ∃ j c, b.chunk j = some c ∧ containsSub c tok = true :=
  waitLoop_flag_aux tok L b ((L + 1) * 1000 + 10) 0 0 [] (by omega) h

/-- A chunk the behavior offers at iteration `i + j` sits inside the segment
`chunksSeg b i (j + 1)`, so a token inside it is a token of the segment. -/
theorem chunk_token_in_seg (b : EngineBehavior) (tok : List Char) :
    ∀ j i c, b.chunk (i + j) = some c → containsSub c tok = true →
      containsSub (chunksSeg b i (j + 1)) tok = true := by
  intro j
  induction j with
  | zero =>
    intro i c hc hct
    have hc0 : b.chunk i = some c := by simpa using hc
    have : chunksSeg b i 1 = c := by simp [chunksSeg, hc0]
    rw [this]
    exact hct
  | succ j ih =>
    intro i c hc hct
    have hc' : b.chunk ((i + 1) + j) = some c := by
      rw [show (i + 1) + j = i + (j + 1) from by omega]
      exact hc
    have hseg : containsSub (chunksSeg b (i + 1) (j + 1)) tok = true := ih (i + 1) c hc' hct
    show containsSub (((b.chunk i).getD []) ++ chunksSeg b (i + 1) (j + 1)) tok = true
    exact containsSub_append_right _ _ _ hseg

/-- When the first occurrence of `"bestmove"` in the text starts the segment
`"bestmove " ++ tok ++ post`, the token holds no space character, and `post` is
empty or starts with a space, the parser returns exactly `tok`. -/
theorem extract_first_occ (pre tok post : List Char)
    (h : strFind (pre ++ (chars "bestmove " ++ (tok ++ post))) bestmoveTok = some pre.length)
    (htok : spaceChar ∉ tok)
    (hpost : post = [] ∨ ∃ q, post = spaceChar :: q) :
    extract (pre ++ (chars "bestmove " ++ (tok ++ post))) = tok := by
  have hline : (pre ++ (chars "bestmove " ++ (tok ++ post))).drop pre.length
      = chars "bestmove " ++ (tok ++ post) := List.drop_left pre _
  have hlen9 : (chars "bestmove ").length = 9 := rfl
  have hdrop9 : (chars "bestmove " ++ (tok ++ post)).drop 9 = tok ++ post :=
    List.drop_left (chars "bestmove ") (tok ++ post)
  have htokp : ∀ x ∈ tok, (x == spaceChar) = false := by
    intro x hx
    rw [beq_eq_false_iff_ne]
    intro he
    exact htok (he ▸ hx)
  have hlenline : (chars "bestmove " ++ (tok ++ post)).length
      = 9 + (tok.length + post.length) := by
    simp [List.length_append, hlen9]
  have hparse : parseBestmove (pre ++ (chars "bestmove " ++ (tok ++ post)))
      = Except.ok tok := by
    unfold parseBestmove
    rw [h]
    simp only [hline]
    rw [if_neg (by omega)]
    rcases hpost with hp | ⟨q, hp⟩
    · subst hp
      have hnone : findCharFrom (chars "bestmove " ++ (tok ++ [])) spaceChar 9 = none := by
        unfold findCharFrom
        rw [hdrop9, List.append_nil, findIdxFrom_eq_none _ tok htokp]
        rfl
      rw [hnone]
      simp only [Option.getD_none]
      rw [hdrop9]
      have hl : (chars "bestmove " ++ (tok ++ [])).length - 9 = tok.length := by
        simp only [List.length_append, List.length_nil, hlen9]
        omega
      rw [hl]
      simp
    · subst hp
      have hsome : findCharFrom (chars "bestmove " ++ (tok ++ (spaceChar :: q))) spaceChar 9
          = some (tok.length + 9) := by
        unfold findCharFrom
        rw [hdrop9, findIdxFrom_append _ tok (spaceChar :: q) htokp]
        simp [findIdxFrom]
      rw [hsome]
      simp only [Option.getD_some]
      rw [hdrop9]
      have : tok.length + 9 - 9 = tok.length := by omega
      rw [this, List.take_left]
  simp [extract, hparse]

/-! Helper lemmas about the locator and the driver. -/

theorem locateLoop_eq_find (ex : List Char → Bool) :
    ∀ l : List (List Char), locateLoop l ex = (l.find? ex).getD [] := by
  intro l
  induction l with
  | nil => rfl
  | cons p rest ih =>
    by_cases hp : ex p
    · simp [locateLoop, hp, List.find?_cons_of_pos]
    · simp [locateLoop, hp, List.find?_cons_of_neg, ih]

/-- The full action trace of a run whose spawn succeeds. -/
theorem run_stockfish_success (ex : List Char → Bool) (nThreads : Nat)
    (readyB resultB : EngineBehavior) (fen : List Char)
    (hloc : locateLoop stockfish_paths ex ≠ []) :
    run_stockfish ex nThreads true true readyB resultB fen =
      ([Action.closeFd Fd.p2cRead, Action.closeFd Fd.c2pWrite,
        Action.sendCmd uciCmd, Action.flush,
        Action.sendCmd (threadsCmd nThreads), Action.sendCmd hashCmd,
        Action.sendCmd skillCmd, Action.sendCmd multiPVCmd,
        Action.sendCmd isreadyCmd, Action.flush,
        Action.sendCmd (positionCmd (cstr fen)), Action.flush,
        Action.sendCmd goCmd, Action.flush] ++ shutdownSeq,
       Except.ok (waitLoop bestmoveTok 7 resultB 0 0 []).1) := by
  unfold run_stockfish
  rw [if_neg hloc]
  simp

theorem threadsCmd_ne_quitCmd (n : Nat) : threadsCmd n ≠ quitCmd := by
  intro h
  have h1 : (threadsCmd n).head? = some 's' := rfl
  rw [h] at h1
  exact absurd h1 (by decide)

theorem positionCmd_ne_quitCmd (f : List Char) : positionCmd f ≠ quitCmd := by
  intro h
  have h1 : (positionCmd f).head? = some 'p' := rfl
  rw [h] at h1
  exact absurd h1 (by decide)

theorem cstr_eq_of_no_nul : ∀ f : List Char, nulChar ∉ f → cstr f = f := by
  intro f
  induction f with
  | nil => intro _; rfl
  | cons a as ih =>
    intro h
    have ha : (a != nulChar) = true := by
      rw [bne_iff_ne]
      intro he
      exact h (by simp [he])
    have has : cstr as = as := ih (fun hm => h (by simp [hm]))
    unfold cstr at has ⊢
    rw [List.takeWhile_cons, if_pos ha, has]

theorem chunksSeg_silent : ∀ m i, chunksSeg silentEngine i m = [] := by
  intro m
  induction m with
  | zero => intro i; rfl
  | succ m ih =>
    intro i
    simp [chunksSeg, (show silentEngine.chunk i = none from rfl), ih]

theorem strFind_eq_none_of_not_contains {s pat : List Char}
    (h : containsSub s pat = false) : strFind s pat = none := by
  cases hsf : strFind s pat with
  | none => rfl
  | some v => rw [containsSub, hsf] at h; simp at h

/-- If no initial segment of the offered chunks contains the token, the polling
loop ends by timeout (flag `false`). -/
theorem waitLoop_noflag (tok : List Char) (L : Nat) (b : EngineBehavior)
    (hno : ∀ m, containsSub (chunksSeg b 0 m) tok = false) :
    (waitLoop tok L b 0 0 []).2 = false := by
  cases hv : (waitLoop tok L b 0 0 []).2 with
  | false => rfl
  | true =>
    obtain ⟨j, c, hc, hct⟩ := waitLoop_flag tok L b hv
    have hseg := chunk_token_in_seg b tok j 0 c (by simpa using hc) hct
    rw [hno (j + 1)] at hseg
    exact absurd hseg (by decide)

/-- If no initial segment of the offered chunks contains the token, the text the
loop hands back has no occurrence of the token either. -/
theorem waitLoop_nofind (tok : List Char) (L : Nat) (b : EngineBehavior)
    (hno : ∀ m, containsSub (chunksSeg b 0 m) tok = false) :
    strFind (waitLoop tok L b 0 0 []).1 tok = none := by
  obtain ⟨m, hm⟩ := waitLoop_text tok L b
  rw [hm]
  exact strFind_eq_none_of_not_contains (hno m)

/-! The claims. -/

/-- C1, counterexample: the text `"bestmove e2e4\nxyz"` contains the well-formed
line `bestmove e2e4`, yet the parser returns `"e2e4\nxyz"`, not `"e2e4"` — the
code searches only for a space character (`line.find(" ", 9)`), so text that
follows the line after a newline is swept into the returned token.  The claim
"returns exactly the token regardless of what surrounds the line" is false. -/
theorem c1_counterexample :
    extract (chars "bestmove e2e4\nxyz") = chars "e2e4\nxyz" ∧
    extract (chars "bestmove e2e4\nxyz") ≠ chars "e2e4" := by
  constructor
  · decide
  · decide

/-- C1, amended: if the first occurrence of `"bestmove"` in the output text is
the one starting the well-formed `bestmove <token>` segment, the token holds no
space character, and the text after the token is either empty or begins with a
space character, then the parse step of `Move` returns exactly the token. -/
theorem c1_extract_token (pre tok post : List Char)
    (h : strFind (pre ++ (chars "bestmove " ++ (tok ++ post))) bestmoveTok = some pre.length)
    (htok : spaceChar ∉ tok)
    (hpost : post = [] ∨ ∃ q, post = spaceChar :: q) :
    extract (pre ++ (chars "bestmove " ++ (tok ++ post))) = tok :=
  extract_first_occ pre tok post h htok hpost

/-- C1, witness: the amended theorem applied to `"xy bestmove e2e4 ponder e7e5"`. -/
theorem c1_witness :
    strFind (chars "xy " ++ (chars "bestmove " ++ (chars "e2e4" ++ chars " ponder e7e5")))
      bestmoveTok = some (chars "xy ").length ∧
    extract (chars "xy " ++ (chars "bestmove " ++ (chars "e2e4" ++ chars " ponder e7e5")))
      = chars "e2e4" :=
  ⟨by decide,
   c1_extract_token (chars "xy ") (chars "e2e4") (chars " ponder e7e5")
     (by decide) (by decide) (Or.inr ⟨chars "ponder e7e5", by decide⟩)⟩

/-- C8, counterexample: the delimiter the code looks for is only the space
character, not general whitespace: on `"bestmove e2e4\tp q"` the first
whitespace-delimited word after `bestmove` is `"e2e4"`, but the parser returns
`"e2e4\tp"` (everything up to the first space). -/
theorem c8_counterexample :
    extract (chars "bestmove e2e4\tp q") = chars "e2e4\tp" ∧
    extract (chars "bestmove e2e4\tp q") ≠ chars "e2e4" := by
  constructor
  · decide
  · decide

/-- C8, amended: the parser returns the characters between position 9 of the
`bestmove` line and the first space character (not: any whitespace) at or after
that position.  In particular, for a space-free token: on
`... bestmove <tok> ponder <...>` it returns `<tok>` with the ponder keyword and
argument excluded, and on text ending immediately after `... bestmove <tok>` it
also returns `<tok>`. -/
theorem c8_first_space_word (p1 p2 tok rest : List Char)
    (h1 : strFind (p1 ++ (chars "bestmove " ++ (tok ++ (chars " ponder " ++ rest))))
      bestmoveTok = some p1.length)
    (h2 : strFind (p2 ++ (chars "bestmove " ++ tok)) bestmoveTok = some p2.length)
    (htok : spaceChar ∉ tok) :
    extract (p1 ++ (chars "bestmove " ++ (tok ++ (chars " ponder " ++ rest)))) = tok ∧
    extract (p2 ++ (chars "bestmove " ++ tok)) = tok := by
  constructor
  · exact extract_first_occ p1 tok (chars " ponder " ++ rest) h1 htok
      (Or.inr ⟨chars "ponder " ++ rest, rfl⟩)
  · have h := extract_first_occ p2 tok [] (by simpa using h2) htok (Or.inl rfl)
    simpa using h

/-- C8, witness: the amended theorem applied to the two spec examples
`"bestmove e2e4 ponder e7e5"` and `"bestmove e2e4"`. -/
theorem c8_witness :
    extract (chars "" ++ (chars "bestmove " ++ (chars "e2e4" ++ (chars " ponder " ++ chars "e7e5"))))
      = chars "e2e4" ∧
    extract (chars "" ++ (chars "bestmove " ++ chars "e2e4")) = chars "e2e4" :=
  c8_first_space_word (chars "") (chars "") (chars "e2e4") (chars "e7e5")
    (by decide) (by decide) (by decide)

/-- C5: the Engine Locator checks the fixed ordered candidate list for execute
permission and selects the first matching path (its loop agrees with
`List.find?` over the candidate list); when no candidate is executable,
`run_stockfish` fails with the not-found error — and with no other error and no
spawn action (the returned trace is empty). -/
theorem c5_locator_first_match (ex : List Char → Bool) (n : Nat)
    (readyB resultB : EngineBehavior) (fen : List Char) :
    locateLoop stockfish_paths ex = (stockfish_paths.find? ex).getD [] ∧
    ((∀ p ∈ stockfish_paths, ex p = false) →
      run_stockfish ex n true true readyB resultB fen =
        ([], Except.error EngineError.notFound)) := by
  constructor
  · exact locateLoop_eq_find ex stockfish_paths
  · intro hall
    have hnone : stockfish_paths.find? ex = none := by
      rw [List.find?_eq_none]
      intro x hx
      simp [hall x hx]
    have hloc : locateLoop stockfish_paths ex = [] := by
      rw [locateLoop_eq_find ex stockfish_paths, hnone]
      rfl
    unfold run_stockfish
    rw [if_pos hloc]

/-- C5, witness: with no executable candidate the run reports exactly
the not-found error. -/
theorem c5_witness :
    run_stockfish (fun _ => false) 4 true true silentEngine silentEngine [] =
      ([], Except.error EngineError.notFound) :=
  (c5_locator_first_match (fun _ => false) 4 silentEngine silentEngine []).2 (by decide)

/-- C10: when both pipes are created and `fork` fails, the four raw pipe file
descriptors are closed (in source order) and nothing else happens before the
spawn error is raised: the whole observable behavior is those four closes plus
the fork-failure error. -/
theorem c10_fork_failure_closes (ex : List Char → Bool) (n : Nat)
    (readyB resultB : EngineBehavior) (fen : List Char)
    (hloc : locateLoop stockfish_paths ex ≠ []) :
    run_stockfish ex n true false readyB resultB fen =
      ([Action.closeFd Fd.p2cRead, Action.closeFd Fd.p2cWrite,
        Action.closeFd Fd.c2pRead, Action.closeFd Fd.c2pWrite],
       Except.error EngineError.forkFailed) := by
  unfold run_stockfish
  rw [if_neg hloc]
  simp

/-- C10, witness: the fork-failure theorem at a concrete environment. -/
theorem c10_witness :
    run_stockfish (fun _ => true) 4 true false silentEngine silentEngine [] =
      ([Action.closeFd Fd.p2cRead, Action.closeFd Fd.p2cWrite,
        Action.closeFd Fd.c2pRead, Action.closeFd Fd.c2pWrite],
       Except.error EngineError.forkFailed) :=
  c10_fork_failure_closes (fun _ => true) 4 silentEngine silentEngine [] (by decide)

/-- C4: for every input FEN and every failure mode — engine not found, pipe
failure, fork failure, or a captured text with no `bestmove` occurrence (which
covers a result-wait timeout with no result, and parse failure) — `Move`
returns the empty string.  `Move` is a total function into plain strings, so no
exception or structured error crosses the boundary in the model; the C++
diagnostics go to `std::cerr` only and are not part of the return value. -/
theorem c4_all_failures_empty (ex : List Char → Bool) (n : Nat) (pOk fOk : Bool)
    (readyB resultB : EngineBehavior) (fen : List Char)
    (h : locateLoop stockfish_paths ex = [] ∨ pOk = false ∨ fOk = false ∨
      strFind (waitLoop bestmoveTok 7 resultB 0 0 []).1 bestmoveTok = none) :
    Move ex n pOk fOk readyB resultB fen = [] := by
  rcases h with h | h | h | h
  · simp [Move, run_stockfish, h]
  · subst h
    simp only [Move, run_stockfish]
    by_cases h1 : locateLoop stockfish_paths ex = [] <;> simp [h1]
  · subst h
    simp only [Move, run_stockfish]
    by_cases h1 : locateLoop stockfish_paths ex = [] <;> cases pOk <;> simp [h1]
  · by_cases h1 : locateLoop stockfish_paths ex = []
    · simp [Move, run_stockfish, h1]
    · cases pOk
      · simp [Move, run_stockfish, h1]
      · cases fOk
        · simp [Move, run_stockfish, h1]
        · have hs := run_stockfish_success ex n readyB resultB fen h1
          simp [Move, hs, extract, parseBestmove, h]

/-- C4, witness: with no executable engine the call returns the empty string. -/
theorem c4_witness :
    Move (fun _ => false) 4 true true silentEngine silentEngine (chars "fen") = [] :=
  c4_all_failures_empty (fun _ => false) 4 true true silentEngine silentEngine
    (chars "fen") (Or.inl (by decide))

/-- C2, counterexample: the claim says a timeout exit guarantees that the
subsequent parse finds no `bestmove` and the call returns empty.  With
`splitChunks` no single read chunk contains the token `bestmove` (the loop's
`strstr` check fails on each chunk, so the loop exits by timeout with flag
`false`), yet the captured text is returned — not discarded — and since the
token straddles the two chunks the parse finds it: `Move` returns `"e2e4"`,
not the empty string. -/
theorem c2_counterexample :
    containsSub (chars "abest") bestmoveTok = false ∧
    containsSub (chars "move e2e4 x") bestmoveTok = false ∧
    waitLoop bestmoveTok 7 splitChunks 0 0 [] = (chars "abestmove e2e4 x", false) ∧
    Move (fun _ => true) 4 true true splitChunks splitChunks (chars "f") = chars "e2e4" := by
  have hch0 : splitChunks.chunk 0 = some (chars "abest") := rfl
  have hch1 : splitChunks.chunk 1 = some (chars "move e2e4 x") := rfl
  have hch2 : splitChunks.chunk 2 = none := rfl
  have hrt0 : splitChunks.readTime 0 = 0 := rfl
  have hrt1 : splitChunks.readTime 1 = 0 := rfl
  have hrt2 : splitChunks.readTime 2 = 9000 := rfl
  have hc0 : containsSub (chars "abest") bestmoveTok = false := by decide
  have hc1 : containsSub (chars "move e2e4 x") bestmoveTok = false := by decide
  have ht0 : ¬ (7 : Nat) < (0 + splitChunks.readTime 0) / 1000 := by rw [hrt0]; decide
  have ht1 : ¬ (7 : Nat) < (10 + splitChunks.readTime 1) / 1000 := by rw [hrt1]; decide
  have ht2 : (7 : Nat) < (20 + splitChunks.readTime 2) / 1000 := by rw [hrt2]; decide
  have e0 : waitLoop bestmoveTok 7 splitChunks 0 0 [] =
      waitLoop bestmoveTok 7 splitChunks 1 10 (chars "abest") := by
    rw [waitLoop_step_some [] hch0 hc0 ht0]
    norm_num [hrt0]
  have e1 : waitLoop bestmoveTok 7 splitChunks 1 10 (chars "abest") =
      waitLoop bestmoveTok 7 splitChunks 2 20 (chars "abest" ++ chars "move e2e4 x") := by
    rw [waitLoop_step_some (chars "abest") hch1 hc1 ht1]
    norm_num [hrt1]
  have e2 : waitLoop bestmoveTok 7 splitChunks 2 20 (chars "abest" ++ chars "move e2e4 x") =
      (chars "abest" ++ chars "move e2e4 x", false) :=
    waitLoop_stop_none (chars "abest" ++ chars "move e2e4 x") hch2 ht2
  have hloop : waitLoop bestmoveTok 7 splitChunks 0 0 [] = (chars "abestmove e2e4 x", false) := by
    rw [e0, e1, e2]
    decide
  refine ⟨hc0, hc1, hloop, ?_⟩
  have hs := run_stockfish_success (fun _ => true) 4 splitChunks splitChunks
    (chars "f") (by decide)
  simp only [Move, hs]
  rw [hloop]
  decide

/-- C2, amended: a Result-Wait timeout does not discard the captured text: the
call returns the parse of exactly the text the loop accumulated, and whenever
that accumulated text (as a whole) contains no `bestmove` occurrence the call
reports no move.  (The converse fails: the parse of retained text can still be
empty when the text does contain the substring, e.g. when it ends fewer than 9
characters after `bestmove` and `substr` throws.) -/
theorem c2_captured_not_discarded (ex : List Char → Bool) (n : Nat)
    (readyB b : EngineBehavior) (fen : List Char)
    (hloc : locateLoop stockfish_paths ex ≠ []) :
    Move ex n true true readyB b fen = extract (waitLoop bestmoveTok 7 b 0 0 []).1 ∧
    (strFind (waitLoop bestmoveTok 7 b 0 0 []).1 bestmoveTok = none →
      Move ex n true true readyB b fen = []) := by
  have hs := run_stockfish_success ex n readyB b fen hloc
  constructor
  · simp [Move, hs]
  · intro hn
    simp [Move, hs, extract, parseBestmove, hn]

/-- C2, witness: the amended theorem at a concrete environment. -/
theorem c2_witness :
    Move (fun _ => true) 4 true true silentEngine silentEngine [] =
      extract (waitLoop bestmoveTok 7 silentEngine 0 0 []).1 :=
  (c2_captured_not_discarded (fun _ => true) 4 silentEngine silentEngine [] (by decide)).1

/-- C3: for every invocation in which spawn succeeds, the shutdown sequence —
send `quit`, flush, close both stream handles, signal, reap — runs exactly once
before `run_stockfish` returns: the action trace ends with `shutdownSeq`, and
each of its distinguished actions occurs exactly once in the whole trace, for
every engine behavior (ready-wait timeout and result-wait timeout included;
parse failure happens after `run_stockfish` has returned and cannot skip it). -/
theorem c3_shutdown_exactly_once (ex : List Char → Bool) (n : Nat)
    (readyB resultB : EngineBehavior) (fen : List Char)
    (hloc : locateLoop stockfish_paths ex ≠ []) :
    (∃ t, (run_stockfish ex n true true readyB resultB fen).1 = t ++ shutdownSeq) ∧
    (run_stockfish ex n true true readyB resultB fen).1.count (Action.sendCmd quitCmd) = 1 ∧
    (run_stockfish ex n true true readyB resultB fen).1.count Action.closeToEngine = 1 ∧
    (run_stockfish ex n true true readyB resultB fen).1.count Action.closeFromEngine = 1 ∧
    (run_stockfish ex n true true readyB resultB fen).1.count Action.kill = 1 ∧
    (run_stockfish ex n true true readyB resultB fen).1.count Action.waitpid = 1 := by
  have hs := run_stockfish_success ex n readyB resultB fen hloc
  have htr : (run_stockfish ex n true true readyB resultB fen).1 =
      [Action.closeFd Fd.p2cRead, Action.closeFd Fd.c2pWrite,
       Action.sendCmd uciCmd, Action.flush,
       Action.sendCmd (threadsCmd n), Action.sendCmd hashCmd,
       Action.sendCmd skillCmd, Action.sendCmd multiPVCmd,
       Action.sendCmd isreadyCmd, Action.flush,
       Action.sendCmd (positionCmd (cstr fen)), Action.flush,
       Action.sendCmd goCmd, Action.flush] ++ shutdownSeq := by
    rw [hs]
  rw [htr]
  refine ⟨⟨_, rfl⟩, ?_, ?_, ?_, ?_, ?_⟩ <;>
    simp +decide [shutdownSeq, List.count_append, List.count_cons, List.count_nil,
      beq_iff_eq, threadsCmd_ne_quitCmd n, positionCmd_ne_quitCmd (cstr fen)]

/-- C3, witness: the theorem at a concrete environment (kill is sent once). -/
theorem c3_witness :
    (run_stockfish (fun _ => true) 4 true true silentEngine silentEngine []).1.count
      Action.kill = 1 :=
  (c3_shutdown_exactly_once (fun _ => true) 4 silentEngine silentEngine []
    (by decide)).2.2.2.2.1

/-- C6: when the engine output never contains the token `bestmove` (no initial
segment of the chunk stream contains it), the Result-Wait loop ends by timeout
(flag `false` — the model's recursion is bounded by the same wall-clock deadline
the code rechecks each iteration, `count() > 7` in truncated seconds), and the
call returns the empty string instead of hanging. -/
theorem c6_result_wait_terminates (ex : List Char → Bool) (n : Nat)
    (readyB b : EngineBehavior) (fen : List Char)
    (hloc : locateLoop stockfish_paths ex ≠ [])
    (hno : ∀ m, containsSub (chunksSeg b 0 m) bestmoveTok = false) :
    (waitLoop bestmoveTok 7 b 0 0 []).2 = false ∧
    Move ex n true true readyB b fen = [] := by
  refine ⟨waitLoop_noflag bestmoveTok 7 b hno, ?_⟩
  have hn := waitLoop_nofind bestmoveTok 7 b hno
  have hs := run_stockfish_success ex n readyB b fen hloc
  simp [Move, hs, extract, parseBestmove, hn]

/-- C6, witness: a silent engine makes the call return empty. -/
theorem c6_witness :
    (waitLoop bestmoveTok 7 silentEngine 0 0 []).2 = false ∧
    Move (fun _ => true) 4 true true silentEngine silentEngine [] = [] :=
  c6_result_wait_terminates (fun _ => true) 4 silentEngine silentEngine [] (by decide)
    (fun m => by rw [chunksSeg_silent m 0]; decide)

/-- C7: a Ready-Wait timeout is non-fatal: when the engine never emits
`readyok`, the ready loop ends by timeout (flag `false`), and the driver still
sends the `position fen <FEN>` and `go movetime 1000` commands, in that order,
within the trace. -/
theorem c7_ready_timeout_nonfatal (ex : List Char → Bool) (n : Nat)
    (b resultB : EngineBehavior) (fen : List Char)
    (hloc : locateLoop stockfish_paths ex ≠ [])
    (hno : ∀ m, containsSub (chunksSeg b 0 m) readyokTok = false) :
    (waitLoop readyokTok 5 b 0 0 []).2 = false ∧
    List.Sublist [Action.sendCmd (positionCmd (cstr fen)), Action.sendCmd goCmd]
      (run_stockfish ex n true true b resultB fen).1 := by
  refine ⟨waitLoop_noflag readyokTok 5 b hno, ?_⟩
  rw [run_stockfish_success ex n b resultB fen hloc]
  exact List.Sublist.cons _ (List.Sublist.cons _ (List.Sublist.cons _ (List.Sublist.cons _
    (List.Sublist.cons _ (List.Sublist.cons _ (List.Sublist.cons _ (List.Sublist.cons _
    (List.Sublist.cons _ (List.Sublist.cons _ (List.Sublist.cons₂ _ (List.Sublist.cons _
    (List.Sublist.cons₂ _ (List.nil_sublist _)))))))))))))

/-- C7, witness: a silent engine still gets sent the query commands. -/
theorem c7_witness :
    (waitLoop readyokTok 5 silentEngine 0 0 []).2 = false ∧
    List.Sublist [Action.sendCmd (positionCmd (cstr [])), Action.sendCmd goCmd]
      (run_stockfish (fun _ => true) 4 true true silentEngine silentEngine []).1 :=
  c7_ready_timeout_nonfatal (fun _ => true) 4 silentEngine silentEngine [] (by decide)
    (fun m => by rw [chunksSeg_silent m 0]; decide)

/-- C9: every call that reaches teardown (every spawn-success call does) writes
to the engine exactly the ordered command sequence `uci`, the four `setoption`
lines, `isready`, `position fen <FEN>`, `go movetime 1000`, `quit`, with the
caller's FEN embedded unmodified (for a FEN with no NUL byte, which `c_str`
would truncate). -/
theorem c9_command_sequence (ex : List Char → Bool) (n : Nat)
    (readyB resultB : EngineBehavior) (fen : List Char)
    (hloc : locateLoop stockfish_paths ex ≠ []) (hnul : nulChar ∉ fen) :
    sendsOf (run_stockfish ex n true true readyB resultB fen).1 =
      [uciCmd, threadsCmd n, hashCmd, skillCmd, multiPVCmd, isreadyCmd,
       positionCmd fen, goCmd, quitCmd] := by
  rw [run_stockfish_success ex n readyB resultB fen hloc]
  simp [sendsOf, shutdownSeq, cstr_eq_of_no_nul fen hnul]

/-- C9, witness: the command sequence for a concrete FEN. -/
theorem c9_witness :
    sendsOf (run_stockfish (fun _ => true) 2 true true silentEngine silentEngine
        (chars "rnbqkbnr/pppppppp/8/8/8/8/PPPPPPPP/RNBQKBNR w KQkq - 0 1")).1 =
      [uciCmd, threadsCmd 2, hashCmd, skillCmd, multiPVCmd, isreadyCmd,
       positionCmd (chars "rnbqkbnr/pppppppp/8/8/8/8/PPPPPPPP/RNBQKBNR w KQkq - 0 1"),
       goCmd, quitCmd] :=
  c9_command_sequence (fun _ => true) 2 silentEngine silentEngine
    (chars "rnbqkbnr/pppppppp/8/8/8/8/PPPPPPPP/RNBQKBNR w KQkq - 0 1")
    (by decide) (by decide)

end ChessSimulator
